import Mathlib

/-!
Verification of the RAG pipeline of the ragboard backend.

This file gives a shallow embedding, in Lean 4, of the chunking, batch
embedding, context assembly and vector-store adapter logic found in
  src/ragboard/backend/app/services/rag_pipeline.py
  src/ragboard/backend/app/services/vector_db.py
and proves or refutes the documented properties of those functions.

Text is modelled as a list of characters, Python string slices as
drop/take, floating point scores as rationals, and Python exceptions as
the error side of an Except value.
-/

namespace Ragboard

/-! ## Python string primitives used by the pipeline -/

/-- Characters stripped by the Python method str.strip with no argument
(ASCII whitespace as used by the source texts). -/
def pySpace (c : Char) : Bool :=
  c = ' ' || c = '\t' || c = '\n' || c = '\r' || c = '\x0b' || c = '\x0c'

/-- Model of the Python expression s.strip: remove leading and trailing
whitespace. -/
def pyStrip (s : List Char) : List Char :=
  ((s.dropWhile pySpace).reverse.dropWhile pySpace).reverse

/-- True when the pattern sub occurs in text starting at position p. -/
def matchesAt (text sub : List Char) (p : Nat) : Bool :=
  sub.isPrefixOf (text.drop p)

/-- Scan positions p, p-1, ..., 0 and return the first (hence highest)
position q with i ≤ q at which sub matches. Helper for rfind. -/
def rfindDown (text sub : List Char) (i : Nat) : Nat → Option Nat
  | 0 => if i = 0 ∧ matchesAt text sub 0 then some 0 else none
  | p + 1 =>
    if i ≤ p + 1 ∧ matchesAt text sub (p + 1) then some (p + 1)
    else rfindDown text sub i p

/-- Model of the Python call text.rfind(sub, i, j): the highest position
q with i ≤ q and q + sub.length ≤ min j text.length at which sub occurs,
or none (Python returns -1). -/
def rfind (text sub : List Char) (i j : Nat) : Option Nat :=
  let jc := min j text.length
  if sub.length ≤ jc then rfindDown text sub i (jc - sub.length) else none

/-! ## chunk_text (rag_pipeline.py lines 159-214) -/

/-- The sentence_ends list of chunk_text, in source order:
period-space, exclamation-space, question-space, blank line. -/
def sentence_ends : List (List Char) :=
  [['.', ' '], ['!', ' '], ['?', ' '], ['\n', '\n']]

/-- The sentence-boundary search of chunk_text (lines 190-200): for each
delimiter in sentence_ends, in order, look for its rightmost occurrence in
[lo, e); the first delimiter found wins (the Python for loop breaks) and
best_break is pos + len(sent_end) - 1; if none is found the raw end e is
kept. -/
def bestBreak (text : List Char) (lo e : Nat) : Nat :=
  match sentence_ends.findSome?
      (fun se => (rfind text se lo e).map (fun pos => pos + se.length - 1)) with
  | some b => b
  | none => e

/-- The final value of the variable end for the iteration of chunk_text
starting at start: the raw boundary start + chunk_size, moved back to a
sentence boundary when end < len(text) (lines 186-200). -/
def chunkEnd (text : List Char) (chunk_size chunk_overlap start : Nat) : Nat :=
  let e := start + chunk_size
  if e < text.length then bestBreak text (start + chunk_overlap) e else e

/-- The next value of start (line 212):
end - chunk_overlap if end < text_length else text_length. -/
def nextStart (text : List Char) (chunk_size chunk_overlap start : Nat) : Nat :=
  let e := chunkEnd text chunk_size chunk_overlap start
  if e < text.length then e - chunk_overlap else text.length

/-- One chunk dictionary produced by chunk_text (lines 204-209); the
metadata entry carries no information used here. -/
structure ChunkData where
  text : List Char
  start_char : Nat
  end_char : Nat
deriving Repr, DecidableEq

/-- The while loop of chunk_text (lines 185-212), with an explicit fuel
argument bounding the number of iterations; chunk_text supplies fuel
text.length + 1, which suffices because start strictly increases (theorem
chunk_progress below). -/
def chunkLoop (text : List Char) (chunk_size chunk_overlap : Nat) :
    Nat → Nat → List ChunkData
  | 0, _ => []
  | fuel + 1, start =>
    if start < text.length then
      let e := chunkEnd text chunk_size chunk_overlap start
      let piece := pyStrip ((text.drop start).take (e - start))
      let rest := chunkLoop text chunk_size chunk_overlap fuel
        (nextStart text chunk_size chunk_overlap start)
      if piece = [] then rest else ⟨piece, start, e⟩ :: rest
    else []

/-- Model of chunk_text (rag_pipeline.py lines 159-214). Raises ValueError
when chunk_overlap >= chunk_size (line 178), otherwise runs the chunking
loop from start = 0. -/
def chunk_text (text : List Char) (chunk_size chunk_overlap : Nat) :
    Except String (List ChunkData) :=
  if chunk_size ≤ chunk_overlap then
    .error "Chunk overlap must be less than chunk size"
  else
    .ok (chunkLoop text chunk_size chunk_overlap (text.length + 1) 0)

/-! ### Basic facts about rfind and bestBreak -/

theorem rfindDown_eq_some {text sub : List Char} {i : Nat} :
    ∀ {p q : Nat}, rfindDown text sub i p = some q →
      i ≤ q ∧ q ≤ p ∧ matchesAt text sub q = true := by
  intro p
  induction p with
  | zero =>
    intro q h
    simp only [rfindDown] at h
    split at h
    · rename_i hc
      cases h
      exact ⟨Nat.le_of_eq hc.1, Nat.le_refl 0, hc.2⟩
    · cases h
  | succ p ih =>
    intro q h
    simp only [rfindDown] at h
    split at h
    · rename_i hc
      cases h
      exact ⟨hc.1, Nat.le_refl _, hc.2⟩
    · rcases ih h with ⟨h1, h2, h3⟩
      exact ⟨h1, Nat.le_succ_of_le h2, h3⟩

theorem rfindDown_maximal {text sub : List Char} {i : Nat} :
    ∀ {p q : Nat}, i ≤ q → q ≤ p → matchesAt text sub q = true →
      ∃ r, rfindDown text sub i p = some r ∧ q ≤ r := by
  intro p
  induction p with
  | zero =>
    intro q hiq hqp hm
    have hq0 : q = 0 := Nat.le_zero.mp hqp
    subst hq0
    have hi0 : i = 0 := Nat.le_zero.mp hiq
    refine ⟨0, ?_, Nat.le_refl 0⟩
    simp [rfindDown, hi0, hm]
  | succ p ih =>
    intro q hiq hqp hm
    by_cases hq : q = p + 1
    · subst hq
      refine ⟨p + 1, ?_, Nat.le_refl _⟩
      simp [rfindDown, hiq, hm]
    · have hqp' : q ≤ p := Nat.lt_succ_iff.mp (Nat.lt_of_le_of_ne hqp hq)
      rcases ih hiq hqp' hm with ⟨r, hr, hqr⟩
      simp only [rfindDown]
      split
      · exact ⟨p + 1, rfl, Nat.le_succ_of_le hqp'⟩
      · exact ⟨r, hr, hqr⟩

/-- Spec-level description of an occurrence of the pattern sub inside the
search window [lo, e) of the text, as searched by rfind. -/
def occursAt (text sub : List Char) (lo e p : Nat) : Prop :=
  lo ≤ p ∧ p + sub.length ≤ min e text.length ∧ matchesAt text sub p = true

instance (text sub : List Char) (lo e p : Nat) :
    Decidable (occursAt text sub lo e p) := by
  unfold occursAt; infer_instance

theorem rfind_eq_some {text sub : List Char} {i j q : Nat}
    (h : rfind text sub i j = some q) : occursAt text sub i j q := by
  unfold rfind at h
  dsimp only at h
  split at h
  · rename_i hlen
    rcases rfindDown_eq_some h with ⟨h1, h2, h3⟩
    refine ⟨h1, ?_, h3⟩
    omega
  · cases h

theorem rfind_eq_some_of_max {text sub : List Char} {lo e p : Nat}
    (hocc : occursAt text sub lo e p)
    (hmax : ∀ q, occursAt text sub lo e q → q ≤ p) :
    rfind text sub lo e = some p := by
  rcases hocc with ⟨hlo, hle, hm⟩
  unfold rfind
  have hsub : sub.length ≤ min e text.length := le_trans (Nat.le_add_left _ _) hle
  rw [if_pos hsub]
  have hptop : p ≤ min e text.length - sub.length := by omega
  rcases rfindDown_maximal hlo hptop hm with ⟨r, hr, hpr⟩
  have hocc_r : occursAt text sub lo e r := by
    rcases rfindDown_eq_some hr with ⟨h1, h2, h3⟩
    exact ⟨h1, by omega, h3⟩
  have : r ≤ p := hmax r hocc_r
  have : r = p := Nat.le_antisymm this hpr
  rw [hr, this]

theorem bestBreak_le {text : List Char} {lo e : Nat} :
    bestBreak text lo e ≤ e := by
  unfold bestBreak
  split
  · rename_i b hb
    rcases List.exists_of_findSome?_eq_some hb with ⟨se, hse, hval⟩
    rcases Option.map_eq_some'.mp hval with ⟨pos, hpos, hb'⟩
    have hocc := rfind_eq_some hpos
    have h2 : 2 ≤ se.length := by
      simp only [sentence_ends, List.mem_cons, List.not_mem_nil, or_false] at hse
      rcases hse with h | h | h | h <;> subst h <;> decide
    rcases hocc with ⟨_, hle, _⟩
    omega
  · exact Nat.le_refl e

theorem lt_bestBreak {text : List Char} {lo e : Nat} (h : lo < e) :
    lo < bestBreak text lo e := by
  unfold bestBreak
  split
  · rename_i b hb
    rcases List.exists_of_findSome?_eq_some hb with ⟨se, hse, hval⟩
    rcases Option.map_eq_some'.mp hval with ⟨pos, hpos, hb'⟩
    have hocc := rfind_eq_some hpos
    have h2 : 2 ≤ se.length := by
      simp only [sentence_ends, List.mem_cons, List.not_mem_nil, or_false] at hse
      rcases hse with h | h | h | h <;> subst h <;> decide
    rcases hocc with ⟨hlo, _, _⟩
    omega
  · exact h

theorem chunkEnd_le {text : List Char} {cs co s : Nat} :
    chunkEnd text cs co s ≤ s + cs := by
  unfold chunkEnd
  dsimp only
  split
  · exact bestBreak_le
  · exact Nat.le_refl _

theorem lt_chunkEnd {text : List Char} {cs co s : Nat} (h : co < cs) :
    s + co < chunkEnd text cs co s := by
  unfold chunkEnd
  dsimp only
  split
  · exact lt_bestBreak (by omega)
  · omega

/-- Progress of the chunking loop: whenever the loop condition
start < len(text) holds and the configuration is valid, the next start is
strictly greater than the current one. -/
theorem chunk_progress (text : List Char) (cs co start : Nat)
    (h : co < cs) (hs : start < text.length) :
    start < nextStart text cs co start := by
  unfold nextStart
  dsimp only
  split
  · have := @lt_chunkEnd text cs co start h
    omega
  · exact hs

theorem nextStart_le (text : List Char) (cs co start : Nat)
    (hs : start < text.length) :
    nextStart text cs co start ≤ text.length := by
  unfold nextStart
  dsimp only
  split
  · rename_i hlt
    omega
  · exact Nat.le_refl _

theorem chunkLoop_at_end (text : List Char) (cs co : Nat) :
    ∀ fuel start, text.length ≤ start → chunkLoop text cs co fuel start = [] := by
  intro fuel start hle
  match fuel with
  | 0 => rfl
  | fuel + 1 =>
    simp only [chunkLoop]
    rw [if_neg (by omega)]

/-- The chunking loop computes the same chunk list under any fuel large
enough to cover the remaining text, because start strictly increases. -/
theorem chunkLoop_fuel_eq (text : List Char) (cs co : Nat) (h : co < cs) :
    ∀ fuel fuel' start, text.length - start < fuel →
      text.length - start < fuel' →
      chunkLoop text cs co fuel start = chunkLoop text cs co fuel' start := by
  intro fuel
  induction fuel with
  | zero => intro fuel' start h1 h2; omega
  | succ fuel ih =>
    intro fuel' start h1 h2
    match fuel' with
    | 0 => omega
    | fuel' + 1 =>
      simp only [chunkLoop]
      by_cases hs : start < text.length
      · rw [if_pos hs, if_pos hs]
        have hnext := chunk_progress text cs co start h hs
        have hle := nextStart_le text cs co start hs
        rw [ih fuel' (nextStart text cs co start) (by omega) (by omega)]
      · rw [if_neg hs, if_neg hs]

/-- C6: with a valid configuration the chunking loop makes strict progress
at every iteration (the new start exceeds the previous start), and hence
chunk_text terminates: any fuel beyond text.length + 1 iterations computes
the same, already final, chunk list. -/
theorem chunk_text_terminates (text : List Char) (cs co : Nat) (h : co < cs) :
    (∀ start, start < text.length → start < nextStart text cs co start) ∧
    (∀ fuel, text.length < fuel →
      chunkLoop text cs co fuel 0 = chunkLoop text cs co (text.length + 1) 0) :=
  ⟨fun start hs => chunk_progress text cs co start h hs,
   fun fuel hf =>
     chunkLoop_fuel_eq text cs co h fuel (text.length + 1) 0 (by omega) (by omega)⟩

/-- Witness for chunk_text_terminates at a concrete input. -/
theorem chunk_text_terminates_witness :
    (0 : Nat) < nextStart "ab".toList 2 1 0 ∧
    chunkLoop "ab".toList 2 1 9 0 = chunkLoop "ab".toList 2 1 ("ab".toList.length + 1) 0 :=
  ⟨(chunk_text_terminates "ab".toList 2 1 (by decide)).1 0 (by decide),
   (chunk_text_terminates "ab".toList 2 1 (by decide)).2 9 (by decide)⟩

theorem length_pyStrip_le (l : List Char) : (pyStrip l).length ≤ l.length := by
  have h1 : (l.dropWhile pySpace).length ≤ l.length :=
    (List.dropWhile_sublist _).length_le
  have h2 : ((l.dropWhile pySpace).reverse.dropWhile pySpace).length ≤
      (l.dropWhile pySpace).reverse.length :=
    (List.dropWhile_sublist _).length_le
  simp only [pyStrip, List.length_reverse] at *
  omega

theorem chunkLoop_text_le (text : List Char) (cs co : Nat) :
    ∀ fuel start c, c ∈ chunkLoop text cs co fuel start → c.text.length ≤ cs := by
  intro fuel
  induction fuel with
  | zero => intro start c hc; simp [chunkLoop] at hc
  | succ fuel ih =>
    intro start c hc
    simp only [chunkLoop] at hc
    by_cases hs : start < text.length
    · rw [if_pos hs] at hc
      split at hc
      · exact ih _ c hc
      · rcases List.mem_cons.mp hc with hh | hh
        · subst hh
          have hlen : ((text.drop start).take
              (chunkEnd text cs co start - start)).length ≤ cs := by
            have := @chunkEnd_le text cs co start
            calc ((text.drop start).take
                (chunkEnd text cs co start - start)).length
                ≤ chunkEnd text cs co start - start := by
                  rw [List.length_take]; omega
              _ ≤ cs := by omega
          exact le_trans (length_pyStrip_le _) hlen
        · exact ih _ c hh
    · rw [if_neg hs] at hc
      simp at hc

/-- C10: every chunk produced by chunk_text has text of length at most
chunk_size: each window spans at most chunk_size characters and stripping
only shortens it. -/
theorem chunk_text_piece_le (text : List Char) (cs co : Nat)
    (l : List ChunkData) (h : chunk_text text cs co = Except.ok l) :
    ∀ c ∈ l, c.text.length ≤ cs := by
  unfold chunk_text at h
  split at h
  · exact Except.noConfusion h
  · injection h with h'
    subst h'
    exact fun c hc => chunkLoop_text_le text cs co _ 0 c hc

/-- Witness for chunk_text_piece_le at a concrete input. -/
theorem chunk_text_piece_le_witness :
    chunk_text "abcdef".toList 4 1 =
      Except.ok [⟨"abcd".toList, 0, 4⟩, ⟨"def".toList, 3, 7⟩] ∧
    ∀ c ∈ [(⟨"abcd".toList, 0, 4⟩ : ChunkData), ⟨"def".toList, 3, 7⟩],
      c.text.length ≤ 4 :=
  ⟨rfl, chunk_text_piece_le "abcdef".toList 4 1 _ rfl⟩

/-- C7 (amended): for a text shorter than chunk_size whose trimmed form is
non-empty, chunk_text returns exactly one chunk carrying the trimmed text;
a text that is empty or whitespace-only instead yields no chunks, since
the loop drops empty trimmed chunks. -/
theorem chunk_text_short (text : List Char) (cs co : Nat) (h : co < cs)
    (hlen : text.length < cs) (hne : pyStrip text ≠ []) :
    chunk_text text cs co = Except.ok [⟨pyStrip text, 0, cs⟩] := by
  have hcs : ¬ (cs ≤ co) := by omega
  unfold chunk_text
  rw [if_neg hcs]
  have htne : text ≠ [] := by
    intro he
    exact hne (by simp [he, pyStrip])
  have hpos : 0 < text.length := List.length_pos.mpr htne
  have hce : chunkEnd text cs co 0 = cs := by
    unfold chunkEnd
    dsimp only
    rw [if_neg (by omega)]
    omega
  have hns : nextStart text cs co 0 = text.length := by
    unfold nextStart
    dsimp only
    rw [hce, if_neg (by omega)]
  simp only [chunkLoop]
  rw [if_pos hpos, hce, hns]
  rw [chunkLoop_at_end text cs co text.length text.length (Nat.le_refl _)]
  simp only [List.drop_zero, Nat.sub_zero]
  rw [List.take_of_length_le (le_of_lt hlen)]
  rw [if_neg hne]

/-- Witness for chunk_text_short at a concrete input. -/
theorem chunk_text_short_witness :
    chunk_text "hi".toList 5 1 = Except.ok [⟨pyStrip "hi".toList, 0, 5⟩] :=
  chunk_text_short "hi".toList 5 1 (by decide) (by decide) (by decide)

/-- C7 counterexample: a whitespace-only text shorter than chunk_size
yields zero chunks, not one, because the trimmed chunk is empty and is
dropped. -/
theorem chunk_text_short_counterexample :
    chunk_text [' '] 5 1 = Except.ok [] ∧ ([' '] : List Char).length < 5 :=
  ⟨rfl, by decide⟩

/-- C5 (amended): the sentence-boundary search tries the four delimiters
in the fixed order period-space, exclamation-space, question-space, blank
line and cuts after the rightmost occurrence of the first delimiter found;
in particular, whenever period-space occurs in the window, the cut is one
past its rightmost occurrence, regardless of any later occurrence of the
other three delimiters. -/
theorem bestBreak_dot_priority (text : List Char) (lo e p : Nat)
    (hocc : occursAt text ['.', ' '] lo e p)
    (hmax : ∀ q, q < e → occursAt text ['.', ' '] lo e q → q ≤ p) :
    bestBreak text lo e = p + 1 := by
  have hmax' : ∀ q, occursAt text ['.', ' '] lo e q → q ≤ p := by
    intro q hq
    rcases hq with ⟨h1, h2, h3⟩
    have hqe : q < e := by
      simp only [List.length_cons, List.length_nil] at h2
      omega
    exact hmax q hqe ⟨h1, h2, h3⟩
  have hr : rfind text ['.', ' '] lo e = some p := rfind_eq_some_of_max hocc hmax'
  unfold bestBreak
  simp only [sentence_ends, List.findSome?_cons, hr, Option.map_some']
  norm_num

/-- Witness for bestBreak_dot_priority at a concrete input. -/
theorem bestBreak_dot_priority_witness :
    bestBreak "ab. cdefgh".toList 0 10 = 3 :=
  bestBreak_dot_priority "ab. cdefgh".toList 0 10 2 (by decide) (by decide)

/-- Modelled from the claim wording of C5: the cut position obtained by
taking the rightmost occurrence among ALL four delimiters in the window
and cutting at pos + len - 1. -/
def maxCut : List Nat → Option Nat
  | [] => none
  | x :: xs =>
    match maxCut xs with
    | none => some x
    | some y => some (max x y)

/-- Modelled from the claim wording of C5: cut at the rightmost occurrence
among all four sentence delimiters in the window, if any occurs. -/
def rightmostDelimCut (text : List Char) (lo e : Nat) : Option Nat :=
  maxCut (sentence_ends.filterMap
    (fun se => (rfind text se lo e).map (fun pos => pos + se.length - 1)))

/-- Text for the C5 counterexample: a period-space occurs at position 1
and an exclamation-space occurs later, at position 4, both inside the
first search window. -/
def c5text : List Char := "a. b! ccccXXXXXXX".toList

/-- C5 counterexample: with chunk_size 10 and overlap 0, the rightmost
delimiter occurrence in the first window demands a cut at 5, but the code
cuts at 2 because period-space is tried first and found; the produced
chunks show the cut at 2. -/
theorem bestBreak_rightmost_counterexample :
    rightmostDelimCut c5text 0 10 = some 5 ∧
    chunkEnd c5text 10 0 0 = 2 ∧
    chunk_text c5text 10 0 = Except.ok
      [⟨"a.".toList, 0, 2⟩, ⟨"b!".toList, 2, 5⟩,
       ⟨"ccccXXXXX".toList, 5, 15⟩, ⟨"XX".toList, 15, 25⟩] ∧
    (2 : Nat) ≠ 5 :=
  ⟨rfl, rfl, rfl, by decide⟩

/-! ## generate_embedding and generate_embeddings_batch (lines 113-157) -/

/-- Model of generate_embedding (rag_pipeline.py lines 113-130): with a
configured client the call returns the remote embedding of the text; the
remote provider is modelled as a fixed deterministic function f. -/
def generate_embedding (f : List Char → List Rat) (text : List Char) :
    List Rat :=
  f text

/-- The batching loop of generate_embeddings_batch (lines 145-152):
process texts in groups of batch_size in input order, extending the
accumulated list with the embeddings of each group. Python raises on a
zero step, so 0 < batch_size is a precondition. -/
def batchLoop (f : List Char → List Rat) (batch_size : Nat)
    (hbs : 0 < batch_size) : List (List Char) → List (List Rat)
  | [] => []
  | t :: ts =>
    ((t :: ts).take batch_size).map f ++
      batchLoop f batch_size hbs ((t :: ts).drop batch_size)
termination_by l => l.length
decreasing_by
  simp only [List.length_drop, List.length_cons]
  omega

/-- Model of generate_embeddings_batch (rag_pipeline.py lines 132-157). -/
def generate_embeddings_batch (f : List Char → List Rat)
    (texts : List (List Char)) (batch_size : Nat) (hbs : 0 < batch_size) :
    List (List Rat) :=
  batchLoop f batch_size hbs texts

theorem batchLoop_eq_map (f : List Char → List Rat) (bs : Nat)
    (hbs : 0 < bs) : ∀ l, batchLoop f bs hbs l = l.map f := by
  have key : ∀ n l, List.length l ≤ n → batchLoop f bs hbs l = l.map f := by
    intro n
    induction n with
    | zero =>
      intro l hl
      have : l = [] := List.eq_nil_of_length_eq_zero (Nat.le_zero.mp hl)
      subst this
      simp [batchLoop]
    | succ n ih =>
      intro l hl
      match l with
      | [] => simp [batchLoop]
      | t :: ts =>
        rw [batchLoop]
        rw [ih ((t :: ts).drop bs) (by simp only [List.length_drop]; simp at hl ⊢; omega)]
        rw [← List.map_append, List.take_append_drop]
  exact fun l => key l.length l (Nat.le_refl _)

/-- C9: batch embedding is order-preserving: the i-th element of
generate_embeddings_batch equals generate_embedding applied to the i-th
input text, for every index and every positive batch size. -/
theorem generate_embeddings_batch_order (f : List Char → List Rat)
    (texts : List (List Char)) (batch_size : Nat) (hbs : 0 < batch_size)
    (i : Nat) :
    (generate_embeddings_batch f texts batch_size hbs)[i]? =
      (texts[i]?).map (generate_embedding f) := by
  unfold generate_embeddings_batch generate_embedding
  rw [batchLoop_eq_map]
  exact List.getElem?_map f texts i

/-- A concrete deterministic embedding provider for witnesses: embed a
text as the one-element vector holding its length. -/
def lenEmbed (t : List Char) : List Rat := [(t.length : Rat)]

/-- Witness for generate_embeddings_batch_order at a concrete input. -/
theorem generate_embeddings_batch_order_witness :
    (generate_embeddings_batch lenEmbed
        ["a".toList, "bb".toList, "ccc".toList] 2 (Nat.succ_pos 1))[1]? =
      (["a".toList, "bb".toList, "ccc".toList][1]?).map
        (generate_embedding lenEmbed) :=
  generate_embeddings_batch_order lenEmbed
    ["a".toList, "bb".toList, "ccc".toList] 2 (Nat.succ_pos 1) 1

/-! ## get_context: the RANK_AND_BUDGET and ASSEMBLE steps
(rag_pipeline.py lines 79-111) -/

/-- Search result returned by the vector store service
(vector_db.py lines 40-48); metadata carries no information used here. -/
structure VectorSearchResult where
  chunk_id : List Char
  resource_id : List Char
  chunk_text : List Char
  score : Rat
  page_number : Option Int
deriving Repr, DecidableEq

/-- The fields of a Resource row consulted when building a citation
(rag_pipeline.py lines 93-105). -/
structure ResourceInfo where
  name : List Char
  resource_type : List Char
deriving Repr, DecidableEq

/-- One citation dictionary (rag_pipeline.py lines 97-105). -/
structure Citation where
  resource_id : List Char
  resource_name : List Char
  resource_type : List Char
  chunk_id : List Char
  page_number : Option Int
  relevance_score : Rat
  excerpt : List Char
deriving Repr, DecidableEq

/-- The excerpt of a citation (line 104): the first 200 characters with an
ellipsis when the chunk is longer than 200 characters. -/
def excerptOf (t : List Char) : List Char :=
  if 200 < t.length then t.take 200 ++ "...".toList else t

/-- Build the citation for an included result (lines 97-105). -/
def mkCitation (info : ResourceInfo) (r : VectorSearchResult) : Citation :=
  ⟨r.resource_id, info.name, info.resource_type, r.chunk_id,
   r.page_number, r.score, excerptOf r.chunk_text⟩

/-- A context part (line 93): the source name tag followed by the chunk. -/
def sourceLine (name chunk : List Char) : List Char :=
  "[Source: ".toList ++ name ++ "]\n".toList ++ chunk

/-- The loop state of the budget loop of get_context (lines 79-81):
context_parts, citations and current_length. -/
structure BuildState where
  context_parts : List (List Char)
  citations : List Citation
  current_length : Nat
deriving Repr, DecidableEq

/-- One iteration of the budget loop (lines 84-106). getRes models the
database lookup of _get_resource_info; a result whose resource is missing
is skipped; a result whose chunk fits the remaining budget is appended to
context and citations and the running length grows by the chunk length;
any other result is skipped, without stopping the loop. -/
def build_context_step (getRes : List Char → Option ResourceInfo)
    (maxLen : Nat) (st : BuildState) (r : VectorSearchResult) : BuildState :=
  match getRes r.resource_id with
  | none => st
  | some info =>
    if st.current_length + r.chunk_text.length ≤ maxLen then
      ⟨st.context_parts ++ [sourceLine info.name r.chunk_text],
       st.citations ++ [mkCitation info r],
       st.current_length + r.chunk_text.length⟩
    else st

/-- The whole budget loop of get_context over the ranked results. -/
def build_context (getRes : List Char → Option ResourceInfo) (maxLen : Nat)
    (results : List VectorSearchResult) : BuildState :=
  results.foldl (build_context_step getRes maxLen) ⟨[], [], 0⟩

/-- The ASSEMBLE step (line 109): join the context parts with the
separator. -/
def assemble_context (parts : List (List Char)) : List Char :=
  List.intercalate "\n\n---\n\n".toList parts

/-- C1 (amended): a candidate whose chunk would overflow the remaining
budget is skipped, but the loop does not stop: the lower-ranked candidates
after it are processed exactly as if the overflowing candidate were
absent, so a later smaller chunk can still enter context and citations. -/
theorem budget_skip_continues (getRes : List Char → Option ResourceInfo)
    (maxLen : Nat) (st : BuildState) (r : VectorSearchResult)
    (rs : List VectorSearchResult)
    (hover : maxLen < st.current_length + r.chunk_text.length) :
    List.foldl (build_context_step getRes maxLen) st (r :: rs) =
      List.foldl (build_context_step getRes maxLen) st rs := by
  have hstep : build_context_step getRes maxLen st r = st := by
    unfold build_context_step
    split
    · rfl
    · rw [if_neg (by omega)]
  rw [List.foldl_cons, hstep]

/-- Resource lookup used by concrete context examples: every resource
resolves to a fixed name. -/
def gW : List Char → Option ResourceInfo :=
  fun _ => some ⟨"R".toList, "pdf".toList⟩

def r1c : VectorSearchResult := ⟨"c1".toList, "r1".toList, "aaaaa".toList, 3, none⟩

def r2c : VectorSearchResult :=
  ⟨"c2".toList, "r2".toList, "bbbbbbbbbb".toList, 2, none⟩

def r3c : VectorSearchResult := ⟨"c3".toList, "r3".toList, "ccc".toList, 1, none⟩

/-- Witness for budget_skip_continues at a concrete input. -/
theorem budget_skip_continues_witness :
    List.foldl (build_context_step gW 8) ⟨[], [], 0⟩ [r2c, r3c] =
      List.foldl (build_context_step gW 8) ⟨[], [], 0⟩ [r3c] :=
  budget_skip_continues gW 8 ⟨[], [], 0⟩ r2c [r3c] (by decide)

/-- C1 counterexample: with budget 8, the ranked list r1c (5 chars,
score 3), r2c (10 chars, score 2), r3c (3 chars, score 1) excludes r2c for
budget, yet the lower-ranked r3c still appears in the citations, contrary
to the claim that everything after the first excluded candidate is
absent. -/
theorem budget_no_break_counterexample :
    (build_context gW 8 [r1c, r2c, r3c]).citations.map Citation.chunk_id =
      ["c1".toList, "c3".toList] ∧
    r3c.score < r2c.score ∧
    8 < r1c.chunk_text.length + r2c.chunk_text.length :=
  ⟨rfl, by decide, by decide⟩

/-- Spec-side companion of the budget loop: the sublist of results the
loop includes, tracking the running character count cur. -/
def includedChunks (getRes : List Char → Option ResourceInfo) (maxLen : Nat) :
    List VectorSearchResult → Nat → List VectorSearchResult
  | [], _ => []
  | r :: rs, cur =>
    match getRes r.resource_id with
    | none => includedChunks getRes maxLen rs cur
    | some _ =>
      if cur + r.chunk_text.length ≤ maxLen then
        r :: includedChunks getRes maxLen rs (cur + r.chunk_text.length)
      else includedChunks getRes maxLen rs cur

theorem build_loop_length (getRes : List Char → Option ResourceInfo)
    (maxLen : Nat) :
    ∀ (rs : List VectorSearchResult) (st : BuildState),
      (List.foldl (build_context_step getRes maxLen) st rs).current_length =
        st.current_length +
          ((includedChunks getRes maxLen rs st.current_length).map
            (fun r => r.chunk_text.length)).sum := by
  intro rs
  induction rs with
  | nil => intro st; simp [includedChunks]
  | cons r rs ih =>
    intro st
    rw [List.foldl_cons]
    cases hg : getRes r.resource_id with
    | none => simp only [build_context_step, includedChunks, hg, ih]
    | some info =>
      by_cases hfit : st.current_length + r.chunk_text.length ≤ maxLen
      · simp only [build_context_step, includedChunks, hg, if_pos hfit, ih]
        simp only [List.map_cons, List.sum_cons]
        omega
      · simp only [build_context_step, includedChunks, hg, if_neg hfit, ih]

theorem build_loop_le (getRes : List Char → Option ResourceInfo)
    (maxLen : Nat) :
    ∀ (rs : List VectorSearchResult) (st : BuildState),
      st.current_length ≤ maxLen →
      (List.foldl (build_context_step getRes maxLen) st rs).current_length ≤
        maxLen := by
  intro rs
  induction rs with
  | nil => intro st h; simpa using h
  | cons r rs ih =>
    intro st h
    rw [List.foldl_cons]
    cases hg : getRes r.resource_id with
    | none => simp only [build_context_step, hg]; exact ih st h
    | some info =>
      by_cases hfit : st.current_length + r.chunk_text.length ≤ maxLen
      · simp only [build_context_step, hg, if_pos hfit]
        exact ih _ hfit
      · simp only [build_context_step, hg, if_neg hfit]
        exact ih st h

/-- C4 (amended): the running character count of the budget loop equals the
sum of the included chunk text lengths and never exceeds
max_context_length; the source tags and separators added by the ASSEMBLE
step are not counted, so the assembled string itself can be longer (see
the counterexample). -/
theorem context_budget (getRes : List Char → Option ResourceInfo)
    (maxLen : Nat) (results : List VectorSearchResult) :
    (build_context getRes maxLen results).current_length =
      ((includedChunks getRes maxLen results 0).map
        (fun r => r.chunk_text.length)).sum ∧
    (build_context getRes maxLen results).current_length ≤ maxLen := by
  constructor
  · have h := build_loop_length getRes maxLen results ⟨[], [], 0⟩
    simpa using h
  · exact build_loop_le getRes maxLen results ⟨[], [], 0⟩ (Nat.zero_le _)

def r4c : VectorSearchResult := ⟨"c4".toList, "r4".toList, "abcde".toList, 1, none⟩

/-- C4 counterexample: a single included chunk of exactly
max_context_length = 5 characters produces an assembled context of 17
characters, because the source tag is not counted by the budget. -/
theorem context_budget_counterexample :
    (assemble_context (build_context gW 5 [r4c]).context_parts).length = 17 ∧
    r4c.chunk_text.length ≤ 5 ∧
    ¬ ((17 : Nat) ≤ 5) :=
  ⟨rfl, by decide, by decide⟩

/-! ## VectorDBService (vector_db.py) -/

/-- The vector store providers dispatched on in vector_db.py. -/
inductive Provider
  | pinecone
  | weaviate
  | chroma
deriving Repr, DecidableEq

/-- The connection state of VectorDBService: the provider string together
with whether self.client, respectively self.collection, was successfully
initialized (they stay None when the store is misconfigured or the
library is missing, lines 54-73). -/
structure VectorDBService where
  provider : Provider
  clientAvailable : Bool
  collectionAvailable : Bool
deriving Repr, DecidableEq

/-- Whether the dispatch in add_embeddings and search (lines 167-175 and
283-291) finds a usable backing store. -/
def isConfigured (svc : VectorDBService) : Bool :=
  match svc.provider with
  | .pinecone => svc.clientAvailable
  | .weaviate => svc.clientAvailable
  | .chroma => svc.collectionAvailable

/-- Model of add_embeddings (vector_db.py lines 142-175). Chunks are
modelled by their text and embeddings as rational vectors; the per-store
writers _add_pinecone, _add_weaviate, _add_chroma (lines 177-262) return
the number of records written: len(vectors) built from
zip(chunks, embeddings) for Pinecone, len(chunks) for the others. -/
def add_embeddings (svc : VectorDBService) (chunks : List (List Char))
    (embeddings : List (List Rat)) : Except String Nat :=
  if chunks = [] ∨ embeddings = [] then .ok 0
  else if chunks.length ≠ embeddings.length then
    .error "Number of chunks and embeddings must match"
  else
    match svc.provider with
    | .pinecone =>
      if svc.clientAvailable then .ok (chunks.zip embeddings).length else .ok 0
    | .weaviate =>
      if svc.clientAvailable then .ok chunks.length else .ok 0
    | .chroma =>
      if svc.collectionAvailable then .ok chunks.length else .ok 0

/-- One match of a Pinecone query response as read by _search_pinecone
(lines 314-325): its id, its score, and the stored metadata fields. -/
structure PineconeMatch where
  id : List Char
  score : Rat
  resource_id : List Char
  chunk_text : List Char
  page_number : Option Int
deriving Repr, DecidableEq

/-- Model of _search_pinecone (lines 293-327): keep the matches whose
native score reaches the threshold, passing the score through. -/
def search_pinecone (ms : List PineconeMatch) (score_threshold : Rat) :
    List VectorSearchResult :=
  ms.filterMap fun m =>
    if score_threshold ≤ m.score then
      some ⟨m.id, m.resource_id, m.chunk_text, m.score, m.page_number⟩
    else none

/-- Decimal digits of a natural number, for the id string built by
_search_weaviate. -/
def natChars (n : Nat) : List Char := (Nat.repr n).toList

/-- One object of a Weaviate near-vector query response as read by
_search_weaviate (lines 354-367). The adapter requests only the listed
properties (lines 339-342); the distance field records the cosine
distance of the stored vector to the query inside the backing store,
which the adapter never reads. -/
structure WeaviateItem where
  chunk_text : List Char
  resource_id : List Char
  chunk_index : Nat
  page_number : Option Int
  distance : Rat
deriving Repr, DecidableEq

/-- Model of _search_weaviate (lines 329-369): every returned object gets
the constant placeholder score 1.0 (line 358), which is then compared
against the threshold. -/
def search_weaviate (items : List WeaviateItem) (score_threshold : Rat) :
    List VectorSearchResult :=
  items.filterMap fun item =>
    let score : Rat := 1
    if score_threshold ≤ score then
      some ⟨item.resource_id ++ '_' :: natChars item.chunk_index,
            item.resource_id, item.chunk_text, score, item.page_number⟩
    else none

/-- One row of a ChromaDB query response as read by _search_chroma
(lines 392-405): id, document text, cosine distance, and metadata. -/
structure ChromaRow where
  id : List Char
  document : List Char
  distance : Rat
  resource_id : List Char
  page_number : Option Int
deriving Repr, DecidableEq

/-- The distance-to-similarity normalization of _search_chroma
(line 395): score = 1 - distance. -/
def chromaScore (distance : Rat) : Rat := 1 - distance

/-- Model of _search_chroma (lines 371-407): convert each cosine distance
to a similarity and keep the rows reaching the threshold. -/
def search_chroma (rows : List ChromaRow) (score_threshold : Rat) :
    List VectorSearchResult :=
  rows.filterMap fun row =>
    let score := chromaScore row.distance
    if score_threshold ≤ score then
      some ⟨row.id, row.resource_id, row.document, score, row.page_number⟩
    else none

/-- Model of search (vector_db.py lines 264-291): dispatch on the provider
and the connection state; with no usable backing store, log and return the
empty list. The backing store responses are passed as parameters. -/
def search (svc : VectorDBService) (pineconeMatches : List PineconeMatch)
    (weaviateItems : List WeaviateItem) (chromaRows : List ChromaRow)
    (score_threshold : Rat) : List VectorSearchResult :=
  match svc.provider with
  | .pinecone =>
    if svc.clientAvailable then search_pinecone pineconeMatches score_threshold
    else []
  | .weaviate =>
    if svc.clientAvailable then search_weaviate weaviateItems score_threshold
    else []
  | .chroma =>
    if svc.collectionAvailable then search_chroma chromaRows score_threshold
    else []

/-- C2 (amended): the Chroma adapter normalizes cosine distance to
similarity via 1 - distance, strictly order-reversing in the distance, and
the Pinecone adapter passes the native similarity score through; the
Weaviate adapter however assigns every returned result the constant
placeholder score 1, which carries no similarity information. -/
theorem score_normalization :
    (∀ d1 d2 : Rat, d1 < d2 → chromaScore d2 < chromaScore d1) ∧
    (∀ (ms : List PineconeMatch) (thr : Rat) (r : VectorSearchResult),
      r ∈ search_pinecone ms thr →
        ∃ m ∈ ms, r.score = m.score ∧ thr ≤ m.score) ∧
    (∀ (items : List WeaviateItem) (thr : Rat) (r : VectorSearchResult),
      r ∈ search_weaviate items thr → r.score = 1) := by
  refine ⟨?_, ?_, ?_⟩
  · intro d1 d2 h
    unfold chromaScore
    linarith
  · intro ms thr r hr
    unfold search_pinecone at hr
    rcases List.mem_filterMap.mp hr with ⟨m, hm, heq⟩
    by_cases hth : thr ≤ m.score
    · rw [if_pos hth] at heq
      injection heq with heq'
      exact ⟨m, hm, by rw [← heq'], hth⟩
    · rw [if_neg hth] at heq
      cases heq
  · intro items thr r hr
    unfold search_weaviate at hr
    rcases List.mem_filterMap.mp hr with ⟨item, hm, heq⟩
    dsimp only at heq
    by_cases hth : thr ≤ (1 : Rat)
    · rw [if_pos hth] at heq
      injection heq with heq'
      rw [← heq']
    · rw [if_neg hth] at heq
      cases heq

def pmW : PineconeMatch := ⟨"id1".toList, 1, "r".toList, "t".toList, none⟩

def pcResW : VectorSearchResult := ⟨"id1".toList, "r".toList, "t".toList, 1, none⟩

def wvItemW : WeaviateItem := ⟨"t".toList, "r".toList, 0, none, 0⟩

def wvResW : VectorSearchResult :=
  ⟨"r".toList ++ '_' :: natChars 0, "r".toList, "t".toList, 1, none⟩

/-- Witness for score_normalization at concrete inputs. -/
theorem score_normalization_witness :
    chromaScore 1 < chromaScore 0 ∧
    (∃ m ∈ [pmW], pcResW.score = m.score ∧ (0 : Rat) ≤ m.score) ∧
    wvResW.score = 1 :=
  ⟨score_normalization.1 0 1 (by norm_num),
   score_normalization.2.1 [pmW] 0 pcResW (by decide),
   score_normalization.2.2 [wvItemW] 0 wvResW (by decide)⟩

def wvA : WeaviateItem := ⟨"ta".toList, "r".toList, 0, none, 0⟩

def wvB : WeaviateItem := ⟨"tb".toList, "r".toList, 1, none, (1 : Rat) / 2⟩

/-- C2 counterexample: two Weaviate objects at different distances from
the query (the first strictly closer, hence more similar) are both
returned with score 1, so the score does not strictly increase with
similarity on the Weaviate backing store. -/
theorem weaviate_placeholder_counterexample :
    wvA.distance < wvB.distance ∧
    (search_weaviate [wvA, wvB] 0).map VectorSearchResult.score = [1, 1] ∧
    ¬ ((1 : Rat) < 1) :=
  ⟨by norm_num [wvA, wvB], rfl, by norm_num⟩

def svcBad : VectorDBService := ⟨.chroma, false, false⟩

def svcOk : VectorDBService := ⟨.chroma, true, true⟩

/-- C3 counterexample: with no usable backing store and a non-empty chunk
list, add_embeddings returns the success value 0 instead of propagating
an error. -/
theorem add_silent_counterexample :
    add_embeddings svcBad ["a".toList] [[1]] = Except.ok 0 ∧
    (["a".toList] : List (List Char)) ≠ [] :=
  ⟨rfl, by decide⟩

/-- C3 (amended): when no backing store client is configured, both
operations degrade silently: add_embeddings with matching non-empty
inputs logs and returns the count 0 — dropping the data — and search logs
and returns the empty list; neither raises. -/
theorem unconfigured_silent (svc : VectorDBService)
    (chunks : List (List Char)) (embeddings : List (List Rat))
    (pm : List PineconeMatch) (wi : List WeaviateItem) (cr : List ChromaRow)
    (thr : Rat) (hcfg : isConfigured svc = false) (hne : chunks ≠ [])
    (hlen : chunks.length = embeddings.length) :
    add_embeddings svc chunks embeddings = Except.ok 0 ∧
    search svc pm wi cr thr = [] := by
  have hene : embeddings ≠ [] := by
    intro he
    apply hne
    rw [← List.length_eq_zero, hlen, he, List.length_nil]
  obtain ⟨p, ca, coll⟩ := svc
  refine ⟨?_, ?_⟩
  · unfold add_embeddings
    rw [if_neg (not_or.mpr ⟨hne, hene⟩), if_neg (not_not_intro hlen)]
    cases p <;> simp only [isConfigured] at hcfg <;> simp [hcfg]
  · unfold search
    cases p <;> simp only [isConfigured] at hcfg <;> simp [hcfg]

/-- Witness for unconfigured_silent at a concrete input. -/
theorem unconfigured_silent_witness :
    add_embeddings svcBad ["b".toList] [[1]] = Except.ok 0 ∧
    search svcBad [] [] [] 0 = [] :=
  unconfigured_silent svcBad ["b".toList] [[1]] [] [] [] 0 rfl
    (by decide) rfl

/-- C8 counterexample: a non-empty chunk list next to an empty embedding
list has mismatching lengths, yet add_embeddings returns the success
count 0, because the emptiness short-circuit precedes the length check. -/
theorem dimension_mismatch_counterexample :
    add_embeddings svcOk ["a".toList] [] = Except.ok 0 ∧
    ["a".toList].length ≠ ([] : List (List Rat)).length :=
  ⟨rfl, by decide⟩

/-- C8 (amended): when both lists are non-empty and their lengths differ,
add_embeddings fails with ValueError; when either list is empty it instead
returns 0 without checking lengths. -/
theorem dimension_mismatch (svc : VectorDBService)
    (chunks : List (List Char)) (embeddings : List (List Rat))
    (h1 : chunks ≠ []) (h2 : embeddings ≠ [])
    (h3 : chunks.length ≠ embeddings.length) :
    add_embeddings svc chunks embeddings =
      Except.error "Number of chunks and embeddings must match" := by
  unfold add_embeddings
  rw [if_neg (not_or.mpr ⟨h1, h2⟩), if_pos h3]

/-- Witness for dimension_mismatch at a concrete input. -/
theorem dimension_mismatch_witness :
    add_embeddings svcOk ["a".toList, "b".toList] [[1]] =
      Except.error "Number of chunks and embeddings must match" :=
  dimension_mismatch svcOk ["a".toList, "b".toList] [[1]]
    (by decide) (by decide) (by decide)

end Ragboard
